import Mathlib

/-!
Shallow embedding of `src/main.rs` of the `snake_video` repository: a
terminal snake game.  The mutable `Vec<Vec<Tile>>` field is embedded as a
total function `Cell → Tile`; in-place assignment `field[r][c] = t` becomes
`Function.update`.  The per-tick body of the simulation loop (lines 111-219
of `main.rs`) is embedded as the pure function `tick`; the `break` on
self-collision is embedded as the `TickResult.gameOver` result.  The random
shuffle performed by `rand::shuffle` inside `get_rnd_empty_cell` is embedded
as an explicit function parameter `shuffle`; theorems that depend on the
randomness assume only that `shuffle` permutes its input list.
-/

namespace Snake

/-- Constant `ROWS = 15` (main.rs line 15). -/
def ROWS : Nat := 15

/-- Constant `COLS = 30` (main.rs line 16). -/
def COLS : Nat := 30

/-- Struct `Cell` with a row and a column, both `usize` (main.rs lines 18-22). -/
structure Cell where
  row : Nat
  col : Nat
deriving DecidableEq

/-- Enum `Tile`: `Empty`, `Snake(Cell)` or `Food` (main.rs lines 24-29). -/
inductive Tile where
  | Empty : Tile
  | Snake : Cell → Tile
  | Food : Tile
deriving DecidableEq

/-- Enum `Polarity`: `Pos` or `Neg` (main.rs lines 31-35). -/
inductive Polarity where
  | Pos : Polarity
  | Neg : Polarity
deriving DecidableEq

/-- Enum `Direction`: `Hor(Polarity)` or `Ver(Polarity)` (main.rs lines 37-41). -/
inductive Direction where
  | Hor : Polarity → Direction
  | Ver : Polarity → Direction
deriving DecidableEq

/-- Struct `Control` holding the current and the next requested direction
(main.rs lines 43-46). -/
structure Control where
  dir_current : Direction
  dir_next : Direction
deriving DecidableEq

/-- The game field `Vec<Vec<Tile>>` (main.rs line 61), embedded as a total
function from coordinates to tiles.  The program only ever reads or writes
coordinates inside `[0, ROWS) × [0, COLS)`. -/
def Field : Type := Cell → Tile

/-- In-place tile assignment `field[c.row][c.col] = t`. -/
def setTile (field : Field) (c : Cell) (t : Tile) : Field :=
  Function.update field c t

/-- A coordinate lies on the grid. -/
def InBounds (c : Cell) : Prop := c.row < ROWS ∧ c.col < COLS

instance (c : Cell) : Decidable (InBounds c) := by
  unfold InBounds; infer_instance

/-- The `step` function (main.rs lines 127-140): increase or decrease a
coordinate by one with toroidal wraparound at `lim`. -/
def step (p : Nat) (pol : Polarity) (lim : Nat) : Nat :=
  match pol with
  | Polarity.Pos => if p = lim - 1 then 0 else p + 1
  | Polarity.Neg => if p = 0 then lim - 1 else p - 1

/-- Head movement (main.rs lines 145-152): step the row or the column of
the head according to the direction's axis and polarity. -/
def moveHead (dir : Direction) (head : Cell) : Cell :=
  match dir with
  | Direction.Hor pol => { head with col := step head.col pol COLS }
  | Direction.Ver pol => { head with row := step head.row pol ROWS }

/-- Equality of `discriminant(&a)` and `discriminant(&b)` for `Direction`
(main.rs line 247): the two directions share the same axis. -/
def sameAxis : Direction → Direction → Bool
  | Direction.Hor _, Direction.Hor _ => true
  | Direction.Ver _, Direction.Ver _ => true
  | _, _ => false

/-- The axis of a direction: `true` for horizontal, `false` for vertical.
Two directions share their discriminant exactly when their axes are
equal. -/
def axis : Direction → Bool
  | Direction.Hor _ => true
  | Direction.Ver _ => false

/-- The input listener's direction-proposal operation (main.rs lines
231-250): the proposed direction is stored into `dir_next` only when its
discriminant differs from that of `dir_current`. -/
def propose (ctrl : Control) (d : Direction) : Control :=
  if sameAxis ctrl.dir_current d then ctrl else { ctrl with dir_next := d }

/-- The simulation thread's per-tick commit (main.rs lines 112-117):
`control.dir_current = control.dir_next.clone()`, returning the committed
direction. -/
def commit (ctrl : Control) : Control × Direction :=
  ({ ctrl with dir_current := ctrl.dir_next }, ctrl.dir_next)

/-- The row-major scan of `get_rnd_empty_cell` (main.rs lines 69-77):
collect the coordinates of all `Empty` tiles. -/
def emptyCells (field : Field) : List Cell :=
  (List.range ROWS).flatMap (fun row =>
    (List.range COLS).filterMap (fun col =>
      match field ⟨row, col⟩ with
      | Tile.Empty => some ⟨row, col⟩
      | _ => none))

/-- Function `get_rnd_empty_cell` (main.rs lines 68-91): scan for empty cells,
return `none` when there are none, otherwise shuffle the list and take its
first element.  The random shuffle is the explicit `shuffle` parameter. -/
def get_rnd_empty_cell (shuffle : List Cell → List Cell) (field : Field) :
    Option Cell :=
  let empty_cells := emptyCells field
  if empty_cells.isEmpty then none
  else (shuffle empty_cells).head?

/-- The mutable simulation state owned by the render thread: the field and
the tracked head and tail coordinates (main.rs lines 61, 93-105). -/
structure SimState where
  field : Field
  head : Cell
  tail : Cell

/-- Result of one pass through the simulation loop body: `ok` when the loop
continues, `gameOver` when the `Snake(_)` arm executes `break`
(main.rs line 175). -/
inductive TickResult where
  | ok : SimState → TickResult
  | gameOver : SimState → TickResult

/-- The `Food` arm (main.rs lines 156-168): try to find a random empty cell
and put a new piece of food there; do nothing if there is none. -/
def placeFood (shuffle : List Cell → List Cell) (field : Field) : Field :=
  match get_rnd_empty_cell shuffle field with
  | some cell => setTile field cell Tile.Food
  | none => field

/-- The `Empty` arm (main.rs lines 177-183): if the tail tile is a snake
segment, clear it and advance the tracked tail to the segment it
references. -/
def retractTail (field : Field) (tail : Cell) : Field × Cell :=
  match field tail with
  | Tile.Snake next => (setTile field tail Tile.Empty, next)
  | _ => (field, tail)

/-- The two unconditional head writes (main.rs lines 186-192): the previous
head's tile becomes `Snake(head)` referencing the new head, and the new
head's cell becomes `Snake(head)` referencing itself. -/
def writeHead (field : Field) (head_prev head : Cell) : Field :=
  setTile (setTile field head_prev (Tile.Snake head)) head (Tile.Snake head)

/-- One iteration of the simulation loop body (main.rs lines 142-192),
given the direction committed for this tick.  `gameOver` corresponds to the
`break` out of the loop; at that point only the local `head` variable has
been advanced. -/
def tick (shuffle : List Cell → List Cell) (dir : Direction) (s : SimState) :
    TickResult :=
  let head_prev := s.head
  let head := moveHead dir s.head
  match s.field head with
  | Tile.Food =>
      TickResult.ok
        { field := writeHead (placeFood shuffle s.field) head_prev head,
          head := head, tail := s.tail }
  | Tile.Snake _ =>
      TickResult.gameOver { field := s.field, head := head, tail := s.tail }
  | Tile.Empty =>
      let ft := retractTail s.field s.tail
      TickResult.ok
        { field := writeHead ft.1 head_prev head, head := head, tail := ft.2 }

/-- Whether a loop iteration ended in the fatal-collision `break`. -/
def isGameOver : TickResult → Bool
  | TickResult.ok _ => false
  | TickResult.gameOver _ => true

/-- Test `matches!(t, Snake(_))`. -/
def isSnake : Tile → Bool
  | Tile.Snake _ => true
  | _ => false

/-- Test `matches!(t, Food)`. -/
def isFood : Tile → Bool
  | Tile.Food => true
  | _ => false

/-- Number of on-grid tiles satisfying `P`. -/
def tileCount (P : Tile → Bool) (field : Field) : Nat :=
  ∑ p ∈ Finset.range ROWS ×ˢ Finset.range COLS,
    (if P (field ⟨p.1, p.2⟩) then 1 else 0)

/-- Number of snake tiles on the grid. -/
def snakeCount (field : Field) : Nat := tileCount isSnake field

/-- Number of food tiles on the grid. -/
def foodCount (field : Field) : Nat := tileCount isFood field

/-- The rendering glyph of one tile (main.rs lines 200-204). -/
def glyph : Tile → Char
  | Tile.Empty => '.'
  | Tile.Snake _ => '@'
  | Tile.Food => '$'

/-- The render pass (main.rs lines 198-211): one `ROWS × COLS` grid of
glyphs, row-major. -/
def render (field : Field) : List (List Char) :=
  (List.range ROWS).map (fun row =>
    (List.range COLS).map (fun col => glyph (field ⟨row, col⟩)))

/-- The initial field before food placement: all cells `Empty`, then the
head tile and the tail tile written as in main.rs lines 93-105 (both store
a reference to the head). -/
def initHead : Cell := ⟨7, 14⟩

/-- The initial tail coordinate (main.rs lines 100-103). -/
def initTail : Cell := ⟨7, 13⟩

/-- The field after the two snake tiles are written (main.rs lines 98 and
105) and before the first food is placed. -/
def initFieldSnake : Field :=
  setTile (setTile (fun _ => Tile.Empty) initHead (Tile.Snake initHead))
    initTail (Tile.Snake initHead)

/-- Initial simulation state (main.rs lines 93-109): snake tiles at the
head and tail, then the first food placed at a random empty cell.  The
`unwrap` on `get_rnd_empty_cell` is embedded as `Option`: `none` models the
panic, which never occurs because the initial field has empty cells. -/
def initState (shuffle : List Cell → List Cell) : Option SimState :=
  match get_rnd_empty_cell shuffle initFieldSnake with
  | some c => some { field := setTile initFieldSnake c Tile.Food,
                     head := initHead, tail := initTail }
  | none => none

/-- The simulation states reachable by the render thread: the initial state
for some permuting shuffle, closed under non-fatal ticks driven by any
committed direction and any permuting shuffle. -/
inductive Reachable : SimState → Prop
  | init (shuffle : List Cell → List Cell)
      (hs : ∀ l, (shuffle l).Perm l) (s : SimState) :
      initState shuffle = some s → Reachable s
  | step (shuffle : List Cell → List Cell)
      (hs : ∀ l, (shuffle l).Perm l) (dir : Direction) (s s' : SimState) :
      Reachable s → tick shuffle dir s = TickResult.ok s' → Reachable s'

/-- Extract the state carried by a tick result. -/
def resultState : TickResult → SimState
  | TickResult.ok s => s
  | TickResult.gameOver s => s

/-- A concrete two-segment snake field used to instantiate the theorems:
snake tiles at (7,13) and (7,14) linked as at startup, food at (0,0),
everything else empty. -/
def exField : Field := fun c =>
  if c = ⟨7, 13⟩ then Tile.Snake ⟨7, 14⟩
  else if c = ⟨7, 14⟩ then Tile.Snake ⟨7, 14⟩
  else if c = ⟨0, 0⟩ then Tile.Food
  else Tile.Empty

/-- Concrete state: the two-segment snake of `exField`. -/
def exState : SimState :=
  { field := exField, head := ⟨7, 14⟩, tail := ⟨7, 13⟩ }

/-- Concrete field with food directly to the right of the snake's head. -/
def exFieldFood : Field := fun c =>
  if c = ⟨7, 13⟩ then Tile.Snake ⟨7, 14⟩
  else if c = ⟨7, 14⟩ then Tile.Snake ⟨7, 14⟩
  else if c = ⟨7, 15⟩ then Tile.Food
  else Tile.Empty

/-- Concrete state: the two-segment snake about to eat. -/
def exStateFood : SimState :=
  { field := exFieldFood, head := ⟨7, 14⟩, tail := ⟨7, 13⟩ }

/-- The initial state produced with the identity shuffle: the first food
lands on the first empty cell in row-major order, which is (0,0). -/
def initStateId : SimState :=
  { field := setTile initFieldSnake ⟨0, 0⟩ Tile.Food,
    head := initHead, tail := initTail }

/-!  ## The snake-chain invariant of reachable states  -/

/-- The link relation of the snake's body: tile `a` stores a reference to
the segment `b` one step closer to the head. -/
def LinkRel (field : Field) (a b : Cell) : Prop := field a = Tile.Snake b

/-- The shape invariant of the simulation state: the snake's tiles form a
chain of at least two distinct on-grid cells from the tracked tail to the
tracked head, linked by their stored references, and the head's own tile
references itself. -/
def ChainInv (s : SimState) : Prop :=
  ∃ cs : List Cell, 2 ≤ cs.length ∧ cs.head? = some s.tail ∧
    cs.getLast? = some s.head ∧ cs.Nodup ∧ (∀ c ∈ cs, InBounds c) ∧
    List.Chain' (LinkRel s.field) cs ∧ s.field s.head = Tile.Snake s.head

/-!  ## Basic lemmas about the embedded operations  -/

theorem setTile_same (field : Field) (c : Cell) (t : Tile) :
    setTile field c t c = t := by
  unfold setTile
  exact Function.update_same c t field

theorem setTile_ne (field : Field) (c c' : Cell) (t : Tile) (h : c' ≠ c) :
    setTile field c t c' = field c' := by
  unfold setTile
  exact Function.update_noteq h t field

theorem step_lt {p lim : Nat} (pol : Polarity) (h : p < lim) :
    step p pol lim < lim := by
  cases pol <;> simp only [step] <;> split <;> omega

theorem step_pos_neg {p lim : Nat} (h : p < lim) :
    step (step p Polarity.Pos lim) Polarity.Neg lim = p := by
  simp only [step]
  split <;> split <;> omega

theorem step_neg_pos {p lim : Nat} (h : p < lim) :
    step (step p Polarity.Neg lim) Polarity.Pos lim = p := by
  simp only [step]
  split <;> split <;> omega

theorem step_ne {p lim : Nat} (pol : Polarity) (h : 2 ≤ lim) :
    step p pol lim ≠ p := by
  cases pol <;> simp only [step] <;> split <;> omega

theorem moveHead_ne (dir : Direction) (head : Cell) :
    moveHead dir head ≠ head := by
  cases dir with
  | Hor pol =>
      intro h
      exact step_ne pol (by norm_num [COLS]) (congrArg Cell.col h)
  | Ver pol =>
      intro h
      exact step_ne pol (by norm_num [ROWS]) (congrArg Cell.row h)

theorem moveHead_inBounds (dir : Direction) (head : Cell)
    (h : InBounds head) : InBounds (moveHead dir head) := by
  obtain ⟨hr, hc⟩ := h
  cases dir with
  | Hor pol => exact ⟨hr, step_lt pol hc⟩
  | Ver pol => exact ⟨step_lt pol hr, hc⟩

theorem mem_emptyCells {field : Field} {c : Cell} :
    c ∈ emptyCells field ↔ InBounds c ∧ field c = Tile.Empty := by
  unfold emptyCells InBounds
  simp only [List.mem_flatMap, List.mem_filterMap, List.mem_range]
  constructor
  · rintro ⟨row, hrow, col, ⟨hcol, hmatch⟩⟩
    cases hfc : field ⟨row, col⟩ <;> rw [hfc] at hmatch <;>
      simp only [Option.some.injEq, reduceCtorEq] at hmatch
    cases hmatch
    exact ⟨⟨hrow, hcol⟩, hfc⟩
  · rintro ⟨⟨hrow, hcol⟩, hc⟩
    exact ⟨c.row, hrow, c.col, hcol, by rw [hc]⟩

theorem get_rnd_empty_cell_some {shuffle : List Cell → List Cell}
    (hs : ∀ l, (shuffle l).Perm l) {field : Field} {c : Cell}
    (h : get_rnd_empty_cell shuffle field = some c) :
    InBounds c ∧ field c = Tile.Empty := by
  simp only [get_rnd_empty_cell] at h
  split at h
  · cases h
  · exact mem_emptyCells.mp
      (((hs (emptyCells field)).mem_iff).mp (List.mem_of_mem_head? h))

theorem get_rnd_empty_cell_isSome {shuffle : List Cell → List Cell}
    (hs : ∀ l, (shuffle l).Perm l) {field : Field}
    (h : emptyCells field ≠ []) :
    ∃ c, get_rnd_empty_cell shuffle field = some c := by
  have hlen : (shuffle (emptyCells field)).length = (emptyCells field).length :=
    (hs (emptyCells field)).length_eq
  cases hsh : shuffle (emptyCells field) with
  | nil =>
      exfalso
      apply h
      rw [hsh] at hlen
      exact List.length_eq_zero.mp hlen.symm
  | cons a l =>
      refine ⟨a, ?_⟩
      simp only [get_rnd_empty_cell, List.isEmpty_iff, h, if_neg, hsh,
        List.head?_cons]
      simp [h]

theorem get_rnd_empty_cell_none {shuffle : List Cell → List Cell}
    (h : emptyCells field = []) :
    get_rnd_empty_cell shuffle field = none := by
  unfold get_rnd_empty_cell
  simp [h]

theorem cell_eta (c : Cell) : (⟨c.row, c.col⟩ : Cell) = c := rfl

/-- Writing one on-grid tile changes a tile count by the difference of the
old and new tiles' contributions. -/
theorem tileCount_setTile (P : Tile → Bool) (field : Field) (c : Cell)
    (t : Tile) (hc : InBounds c) :
    tileCount P (setTile field c t) + (if P (field c) then 1 else 0) =
      tileCount P field + (if P t then 1 else 0) := by
  have hmem : (c.row, c.col) ∈ Finset.range ROWS ×ˢ Finset.range COLS := by
    rw [Finset.mem_product, Finset.mem_range, Finset.mem_range]
    exact hc
  unfold tileCount
  rw [← Finset.sum_erase_add _ _ hmem, ← Finset.sum_erase_add _
    (fun p => if P (field ⟨p.1, p.2⟩) then 1 else 0) hmem]
  have hsame : ∀ p ∈ (Finset.range ROWS ×ˢ Finset.range COLS).erase
      (c.row, c.col),
      (if P (setTile field c t ⟨p.1, p.2⟩) then 1 else 0) =
        (if P (field ⟨p.1, p.2⟩) then 1 else 0) := by
    intro p hp
    have hpne : p ≠ (c.row, c.col) := (Finset.mem_erase.mp hp).1
    have hcne : (⟨p.1, p.2⟩ : Cell) ≠ c := by
      intro hEq
      apply hpne
      have h1 : p.1 = c.row := congrArg Cell.row hEq
      have h2 : p.2 = c.col := congrArg Cell.col hEq
      exact Prod.ext h1 h2
    rw [setTile_ne field c _ t hcne]
  rw [Finset.sum_congr rfl hsame, cell_eta, setTile_same]
  omega

theorem placeFood_some {shuffle : List Cell → List Cell} {field : Field}
    {c : Cell} (h : get_rnd_empty_cell shuffle field = some c) :
    placeFood shuffle field = setTile field c Tile.Food := by
  unfold placeFood
  rw [h]

theorem placeFood_none {shuffle : List Cell → List Cell} {field : Field}
    (h : get_rnd_empty_cell shuffle field = none) :
    placeFood shuffle field = field := by
  unfold placeFood
  rw [h]

theorem retractTail_snake {field : Field} {tail next : Cell}
    (h : field tail = Tile.Snake next) :
    retractTail field tail = (setTile field tail Tile.Empty, next) := by
  unfold retractTail
  rw [h]

theorem writeHead_head (field : Field) (head_prev head : Cell) :
    writeHead field head_prev head head = Tile.Snake head := by
  unfold writeHead
  exact setTile_same _ _ _

theorem writeHead_prev (field : Field) (head_prev head : Cell)
    (h : head_prev ≠ head) :
    writeHead field head_prev head head_prev = Tile.Snake head := by
  unfold writeHead
  rw [setTile_ne _ _ _ _ h, setTile_same]

theorem writeHead_other (field : Field) (head_prev head c : Cell)
    (h1 : c ≠ head_prev) (h2 : c ≠ head) :
    writeHead field head_prev head c = field c := by
  unfold writeHead
  rw [setTile_ne _ _ _ _ h2, setTile_ne _ _ _ _ h1]

/-- Unfolding of `tick` when the candidate head cell holds food. -/
theorem tick_food {shuffle : List Cell → List Cell} {dir : Direction}
    {s : SimState} (h : s.field (moveHead dir s.head) = Tile.Food) :
    tick shuffle dir s = TickResult.ok
      { field := writeHead (placeFood shuffle s.field) s.head
          (moveHead dir s.head),
        head := moveHead dir s.head, tail := s.tail } := by
  simp only [tick]
  rw [h]

/-- Unfolding of `tick` when the candidate head cell holds a snake tile. -/
theorem tick_snake {shuffle : List Cell → List Cell} {dir : Direction}
    {s : SimState} {c : Cell}
    (h : s.field (moveHead dir s.head) = Tile.Snake c) :
    tick shuffle dir s = TickResult.gameOver
      { field := s.field, head := moveHead dir s.head, tail := s.tail } := by
  simp only [tick]
  rw [h]

theorem mem_of_getLast?_eq {l : List Cell} {a : Cell}
    (h : l.getLast? = some a) : a ∈ l := by
  obtain ⟨hne, hEq⟩ := List.mem_getLast?_eq_getLast (Option.mem_def.mpr h)
  rw [hEq]
  exact List.getLast_mem hne

/-- Every cell of a tail-to-head chain holds a snake tile. -/
theorem chain_elems_snake {f : Field} :
    ∀ (cs : List Cell) (hd : Cell), List.Chain' (LinkRel f) cs →
      cs.getLast? = some hd → f hd = Tile.Snake hd →
      ∀ c ∈ cs, ∃ d, f c = Tile.Snake d := by
  intro cs
  induction cs with
  | nil => intro hd _ _ _ c hc; cases hc
  | cons a l ih =>
      intro hd hchain hlast hhd c hc
      cases l with
      | nil =>
          have ha : hd = a := by
            simp only [List.getLast?_singleton, Option.some.injEq] at hlast
            exact hlast.symm
          have hca : c = a := by
            simp only [List.mem_singleton] at hc
            exact hc
          exact ⟨hd, by rw [hca, ← ha, hhd]⟩
      | cons b t =>
          rw [List.chain'_cons] at hchain
          rcases List.mem_cons.mp hc with hca | hcl
          · exact ⟨b, by rw [hca]; exact hchain.1⟩
          · exact ih hd hchain.2
              (by rwa [List.getLast?_cons_cons] at hlast) hhd c hcl

/-- Extending a tail-to-head chain by a new head cell: the links inside the
chain are preserved by any field modification that leaves every non-last
chain cell's tile alone, and the old head now links to the new head. -/
theorem chain_snoc {f f' : Field} (nh : Cell) :
    ∀ (cs : List Cell) (last : Cell), List.Chain' (LinkRel f) cs →
      cs.getLast? = some last →
      (∀ c ∈ cs.dropLast, f' c = f c) → f' last = Tile.Snake nh →
      List.Chain' (LinkRel f') (cs ++ [nh]) := by
  intro cs
  induction cs with
  | nil => intro last _ hlast _ _; cases hlast
  | cons a l ih =>
      intro last hchain hlast hagree hjun
      cases l with
      | nil =>
          have ha : last = a := by
            simp only [List.getLast?_singleton, Option.some.injEq] at hlast
            exact hlast.symm
          rw [List.singleton_append, List.chain'_cons]
          exact ⟨by rw [← ha]; exact hjun, List.chain'_singleton nh⟩
      | cons b t =>
          rw [List.cons_append, List.chain'_cons' ]
          constructor
          · intro y hy
            have hab : f a = Tile.Snake b := (List.chain'_cons.mp hchain).1
            have hda : a ∈ (a :: b :: t).dropLast := by
              rw [List.dropLast_cons₂]
              exact List.mem_cons_self a _
            have hy' : y = b := by
              rw [List.cons_append, List.head?_cons, Option.mem_def,
                Option.some.injEq] at hy
              exact hy.symm
            rw [hy']
            unfold LinkRel
            rw [hagree a hda, hab]
          · exact ih last (List.chain'_cons.mp hchain).2
              (by rwa [List.getLast?_cons_cons] at hlast)
              (fun c hc => hagree c (by
                rw [List.dropLast_cons₂]
                exact List.mem_cons_of_mem a hc)) hjun

/-- In a duplicate-free list, a member of `dropLast` differs from the last
element. -/
theorem dropLast_mem_ne_last {l : List Cell} {last c : Cell}
    (hnd : l.Nodup) (hlast : l.getLast? = some last) (hc : c ∈ l.dropLast) :
    c ≠ last := by
  have hne : l ≠ [] := by
    intro he
    rw [he] at hlast
    cases hlast
  have hg : l.getLast hne = last := by
    rw [List.getLast?_eq_getLast_of_ne_nil hne, Option.some.injEq] at hlast
    exact hlast
  have hsplit : l.dropLast ++ [l.getLast hne] = l :=
    List.dropLast_append_getLast hne
  rw [← hsplit] at hnd
  rw [List.nodup_append] at hnd
  intro hEq
  exact hnd.2.2 hc (by rw [hEq, hg]; exact List.mem_singleton.mpr rfl)

/-- Unfolding of `tick` when the candidate head cell is empty. -/
theorem tick_empty {shuffle : List Cell → List Cell} {dir : Direction}
    {s : SimState} (h : s.field (moveHead dir s.head) = Tile.Empty) :
    tick shuffle dir s = TickResult.ok
      { field := writeHead (retractTail s.field s.tail).1 s.head
          (moveHead dir s.head),
        head := moveHead dir s.head,
        tail := (retractTail s.field s.tail).2 } := by
  simp only [tick]
  rw [h]

/-- The chain invariant is preserved by every non-fatal tick. -/
theorem chainInv_tick {shuffle : List Cell → List Cell}
    (hs : ∀ l, (shuffle l).Perm l) {dir : Direction} {s s' : SimState}
    (hinv : ChainInv s) (htick : tick shuffle dir s = TickResult.ok s') :
    ChainInv s' := by
  obtain ⟨cs, hlen, hhd, hlast, hnd, hbd, hchain, hself⟩ := hinv
  have hheadmem : s.head ∈ cs := mem_of_getLast?_eq hlast
  have hnhne : moveHead dir s.head ≠ s.head := moveHead_ne dir s.head
  have hnhbd : InBounds (moveHead dir s.head) :=
    moveHead_inBounds dir s.head (hbd _ hheadmem)
  have hsnake : ∀ c ∈ cs, ∃ d, s.field c = Tile.Snake d :=
    chain_elems_snake cs s.head hchain hlast hself
  have hcsne : cs ≠ [] := by
    intro he
    rw [he] at hlen
    simp at hlen
  cases hnh : s.field (moveHead dir s.head) with
  | Snake c =>
      rw [tick_snake hnh] at htick
      cases htick
  | Food =>
      rw [tick_food hnh] at htick
      injection htick with hEq
      subst hEq
      have hnot : moveHead dir s.head ∉ cs := by
        intro hmem
        obtain ⟨d, hd⟩ := hsnake _ hmem
        rw [hnh] at hd
        cases hd
      have hag1 : ∀ c ∈ cs, placeFood shuffle s.field c = s.field c := by
        intro c hc
        cases hfc : get_rnd_empty_cell shuffle s.field with
        | none => rw [placeFood_none hfc]
        | some chosen =>
            rw [placeFood_some hfc]
            obtain ⟨_, hce⟩ := get_rnd_empty_cell_some hs hfc
            apply setTile_ne
            intro hEq
            obtain ⟨d, hd⟩ := hsnake _ hc
            rw [hEq, hce] at hd
            cases hd
      refine ⟨cs ++ [moveHead dir s.head], ?_, ?_, ?_, ?_, ?_, ?_, ?_⟩
      · rw [List.length_append]
        simp only [List.length_singleton]
        omega
      · rw [List.head?_append_of_ne_nil _ hcsne]
        exact hhd
      · rw [List.getLast?_append_of_ne_nil cs (List.cons_ne_nil _ _)]
        rfl
      · rw [List.nodup_append]
        refine ⟨hnd, List.nodup_singleton _, ?_⟩
        intro a ha hb
        rw [List.mem_singleton] at hb
        rw [hb] at ha
        exact hnot ha
      · intro c hc
        rcases List.mem_append.mp hc with hc1 | hc2
        · exact hbd c hc1
        · rw [List.mem_singleton] at hc2
          rw [hc2]
          exact hnhbd
      · refine chain_snoc (moveHead dir s.head) cs s.head hchain hlast ?_ ?_
        · intro c hc
          have hcm : c ∈ cs := List.dropLast_subset cs hc
          have h2 : c ≠ moveHead dir s.head := by
            intro hEq
            exact hnot (hEq ▸ hcm)
          show writeHead (placeFood shuffle s.field) s.head
            (moveHead dir s.head) c = s.field c
          rw [writeHead_other _ _ _ _ (dropLast_mem_ne_last hnd hlast hc) h2]
          exact hag1 c hcm
        · exact writeHead_prev _ _ _ hnhne.symm
      · exact writeHead_head _ _ _
  | Empty =>
      rw [tick_empty hnh] at htick
      cases cs with
      | nil => cases hhd
      | cons c0 l =>
      cases l with
      | nil =>
          rw [List.length_singleton] at hlen
          omega
      | cons c1 rest =>
      have hc0 : c0 = s.tail := by
        rw [List.head?_cons, Option.some.injEq] at hhd
        exact hhd
      have hlk : s.field s.tail = Tile.Snake c1 := by
        rw [← hc0]
        exact (List.chain'_cons.mp hchain).1
      have hchain2 : List.Chain' (LinkRel s.field) (c1 :: rest) :=
        (List.chain'_cons.mp hchain).2
      rw [retractTail_snake hlk] at htick
      injection htick with hEq
      subst hEq
      have hnot : moveHead dir s.head ∉ (c0 :: c1 :: rest) := by
        intro hmem
        obtain ⟨d, hd⟩ := hsnake _ hmem
        rw [hnh] at hd
        cases hd
      have hc0notin : c0 ∉ c1 :: rest := (List.nodup_cons.mp hnd).1
      have hnd2 : (c1 :: rest).Nodup := (List.nodup_cons.mp hnd).2
      have hlast2 : (c1 :: rest).getLast? = some s.head := by
        rwa [List.getLast?_cons_cons] at hlast
      refine ⟨(c1 :: rest) ++ [moveHead dir s.head], ?_, ?_, ?_, ?_, ?_,
        ?_, ?_⟩
      · rw [List.length_append]
        simp only [List.length_singleton, List.length_cons]
        omega
      · rw [List.head?_append_of_ne_nil _ (List.cons_ne_nil _ _)]
        rfl
      · rw [List.getLast?_append_of_ne_nil _ (List.cons_ne_nil _ _)]
        rfl
      · rw [List.nodup_append]
        refine ⟨hnd2, List.nodup_singleton _, ?_⟩
        intro a ha hb
        rw [List.mem_singleton] at hb
        rw [hb] at ha
        exact hnot (List.mem_cons_of_mem c0 ha)
      · intro c hc
        rcases List.mem_append.mp hc with hc1 | hc2
        · exact hbd c (List.mem_cons_of_mem c0 hc1)
        · rw [List.mem_singleton] at hc2
          rw [hc2]
          exact hnhbd
      · refine chain_snoc (moveHead dir s.head) (c1 :: rest) s.head hchain2
          hlast2 ?_ ?_
        · intro c hc
          have hcm : c ∈ c1 :: rest := List.dropLast_subset _ hc
          have h1 : c ≠ s.head := dropLast_mem_ne_last hnd2 hlast2 hc
          have h2 : c ≠ moveHead dir s.head := by
            intro hEq
            exact hnot (hEq ▸ List.mem_cons_of_mem c0 hcm)
          have h3 : c ≠ s.tail := by
            intro hEq
            apply hc0notin
            rw [hc0, ← hEq]
            exact hcm
          show writeHead (setTile s.field s.tail Tile.Empty) s.head
            (moveHead dir s.head) c = s.field c
          rw [writeHead_other _ _ _ _ h1 h2, setTile_ne _ _ _ _ h3]
        · exact writeHead_prev _ _ _ hnhne.symm
      · exact writeHead_head _ _ _

theorem initFieldSnake_tail : initFieldSnake initTail = Tile.Snake initHead :=
  setTile_same _ _ _

theorem initFieldSnake_head : initFieldSnake initHead = Tile.Snake initHead := by
  unfold initFieldSnake
  rw [setTile_ne _ _ _ _ (by decide), setTile_same]

/-- The initial state satisfies the chain invariant, whichever empty cell
receives the first food. -/
theorem chainInv_init {shuffle : List Cell → List Cell}
    (hs : ∀ l, (shuffle l).Perm l) {s : SimState}
    (hinit : initState shuffle = some s) : ChainInv s := by
  unfold initState at hinit
  cases hfc : get_rnd_empty_cell shuffle initFieldSnake with
  | none =>
      rw [hfc] at hinit
      cases hinit
  | some c =>
      rw [hfc] at hinit
      injection hinit with hEq
      subst hEq
      obtain ⟨hcb, hce⟩ := get_rnd_empty_cell_some hs hfc
      have hct : initTail ≠ c := by
        intro hEq
        rw [← hEq, initFieldSnake_tail] at hce
        cases hce
      have hch : initHead ≠ c := by
        intro hEq
        rw [← hEq, initFieldSnake_head] at hce
        cases hce
      refine ⟨[initTail, initHead], ?_, rfl, rfl, by decide, by decide,
        ?_, ?_⟩
      · simp
      · rw [List.chain'_cons]
        refine ⟨?_, List.chain'_singleton _⟩
        show setTile initFieldSnake c Tile.Food initTail = Tile.Snake initHead
        rw [setTile_ne _ _ _ _ hct, initFieldSnake_tail]
      · show setTile initFieldSnake c Tile.Food initHead = Tile.Snake initHead
        rw [setTile_ne _ _ _ _ hch, initFieldSnake_head]

/-- Every reachable simulation state satisfies the chain invariant. -/
theorem reachable_chainInv {s : SimState} (h : Reachable s) : ChainInv s := by
  induction h with
  | init shuffle hs s hinit => exact chainInv_init hs hinit
  | step shuffle hs dir s s' _ htick ih => exact chainInv_tick hs ih htick

/-!  ## The claims  -/

/-- Claim C5: for every position `p` in `[0, lim)` and every polarity the
wraparound step stays in `[0, lim)`; stepping positive then negative, or
negative then positive, returns to `p`; stepping past the last index yields
0 and stepping before index 0 yields the last index. -/
theorem claim_C5_step_wraparound (p lim : Nat) (pol : Polarity)
    (h : p < lim) :
    step p pol lim < lim ∧
    step (step p Polarity.Pos lim) Polarity.Neg lim = p ∧
    step (step p Polarity.Neg lim) Polarity.Pos lim = p ∧
    step (lim - 1) Polarity.Pos lim = 0 ∧
    step 0 Polarity.Neg lim = lim - 1 := by
  refine ⟨step_lt pol h, step_pos_neg h, step_neg_pos h, ?_, ?_⟩ <;>
    simp [step]

/-- Witness for C5 at `p = 3`, `lim = 30`, positive polarity. -/
theorem claim_C5_witness :
    step 3 Polarity.Pos 30 < 30 ∧
    step (step 3 Polarity.Pos 30) Polarity.Neg 30 = 3 ∧
    step (step 3 Polarity.Neg 30) Polarity.Pos 30 = 3 ∧
    step (30 - 1) Polarity.Pos 30 = 0 ∧
    step 0 Polarity.Neg 30 = 30 - 1 :=
  claim_C5_step_wraparound 3 30 Polarity.Pos (by decide)

/-- Claim C2: proposing a direction stores it into the pending `dir_next`
slot exactly when its axis differs from the current committed direction's
axis; a proposal on the same axis (including full reversal) leaves the
pending direction unchanged.  The test reads `dir_current`, never the
pending `dir_next`, which is quantified arbitrarily here. -/
theorem claim_C2_turn_validation (cur nxt d : Direction) :
    (propose ⟨cur, nxt⟩ d).dir_next =
      (if axis cur = axis d then nxt else d) ∧
    (propose ⟨cur, nxt⟩ d).dir_current = cur := by
  cases cur <;> cases d <;> simp [propose, sameAxis, axis]

/-- Claim C1: if the tile at the candidate head position is a snake
segment (any segment, the head's own cell included), the tick classifies a
fatal collision and the simulation loop terminates — the loop body returns
the `gameOver` result that embeds the `break` — for every body length at
least 2. -/
theorem claim_C1_self_collision (shuffle : List Cell → List Cell)
    (dir : Direction) (s : SimState) (c : Cell)
    (hlen : 2 ≤ snakeCount s.field)
    (hhit : s.field (moveHead dir s.head) = Tile.Snake c) :
    isGameOver (tick shuffle dir s) = true := by
  rw [tick_snake hhit]
  rfl

set_option maxRecDepth 10000 in
/-- Witness for C1: the two-segment start snake reversing into its own
tail cell. -/
theorem claim_C1_witness :
    isGameOver (tick id (Direction.Hor Polarity.Neg) exState) = true :=
  claim_C1_self_collision id (Direction.Hor Polarity.Neg) exState ⟨7, 14⟩
    (by decide) (by decide)

/-- Claim C9: when a tick classifies a fatal collision, the loop exits
before the tail retraction and before either head-tile write: the field
and the tracked tail are exactly what they were before the tick, and only
the tracked head has advanced. -/
theorem claim_C9_game_over_atomic (shuffle : List Cell → List Cell)
    (dir : Direction) (s : SimState) (c : Cell)
    (hhit : s.field (moveHead dir s.head) = Tile.Snake c) :
    tick shuffle dir s = TickResult.gameOver
      { field := s.field, head := moveHead dir s.head, tail := s.tail } :=
  tick_snake hhit

/-- Witness for C9: the about-to-eat snake reversing into its own tail
cell. -/
theorem claim_C9_witness :
    tick id (Direction.Hor Polarity.Neg) exStateFood = TickResult.gameOver
      { field := exStateFood.field,
        head := moveHead (Direction.Hor Polarity.Neg) exStateFood.head,
        tail := exStateFood.tail } :=
  claim_C9_game_over_atomic id (Direction.Hor Polarity.Neg) exStateFood
    ⟨7, 14⟩ (by decide)

/-- Claim C6 as stated is false on the code: after an ordinary tick from
the concrete start snake (head (7,14) moving right), the tile written at
the previous head's cell (7,14) references the NEW head position (7,15),
not the previous head position (7,14) as the claim asserts. -/
theorem claim_C6_counterexample :
    (resultState (tick id (Direction.Hor Polarity.Pos) exState)).field
      ⟨7, 14⟩ ≠ Tile.Snake ⟨7, 14⟩ := by
  decide

/-- Claim C6 (amended): on every non-colliding tick, the previous head's
cell receives a snake tile whose back-reference points to the NEW head
position, and the new head's cell receives a snake tile whose
back-reference points to itself. -/
theorem claim_C6_amended (shuffle : List Cell → List Cell)
    (dir : Direction) (s s' : SimState)
    (htick : tick shuffle dir s = TickResult.ok s') :
    s'.field s.head = Tile.Snake (moveHead dir s.head) ∧
    s'.field (moveHead dir s.head) = Tile.Snake (moveHead dir s.head) := by
  cases hnh : s.field (moveHead dir s.head) with
  | Snake c =>
      rw [tick_snake hnh] at htick
      cases htick
  | Food =>
      rw [tick_food hnh] at htick
      injection htick with hEq
      subst hEq
      exact ⟨writeHead_prev _ _ _ (moveHead_ne dir s.head).symm,
        writeHead_head _ _ _⟩
  | Empty =>
      rw [tick_empty hnh] at htick
      injection htick with hEq
      subst hEq
      exact ⟨writeHead_prev _ _ _ (moveHead_ne dir s.head).symm,
        writeHead_head _ _ _⟩

/-- Witness for the amended C6 on a concrete ordinary tick. -/
theorem claim_C6_witness :
    (resultState (tick id (Direction.Hor Polarity.Pos) exState)).field
        exState.head =
      Tile.Snake (moveHead (Direction.Hor Polarity.Pos) exState.head) ∧
    (resultState (tick id (Direction.Hor Polarity.Pos) exState)).field
        (moveHead (Direction.Hor Polarity.Pos) exState.head) =
      Tile.Snake (moveHead (Direction.Hor Polarity.Pos) exState.head) :=
  claim_C6_amended id (Direction.Hor Polarity.Pos) exState
    (resultState (tick id (Direction.Hor Polarity.Pos) exState)) rfl

/-- Claim C7: the renderer produces a fixed `ROWS × COLS` character grid in
row-major order, mapping each tile to exactly one glyph: a dot for Empty,
an at-sign for Snake, a dollar sign for Food. -/
theorem claim_C7_render (field : Field) :
    (render field).length = ROWS ∧
    (∀ r, r < ROWS → ((render field).getD r []).length = COLS) ∧
    (∀ r c, r < ROWS → c < COLS →
      ((render field).getD r []).getD c ' ' = glyph (field ⟨r, c⟩)) ∧
    glyph Tile.Empty = '.' ∧ (∀ x, glyph (Tile.Snake x) = '@') ∧
    glyph Tile.Food = '$' := by
  have hrow : ∀ r, r < ROWS → (render field).getD r [] =
      (List.range COLS).map (fun col => glyph (field ⟨r, col⟩)) := by
    intro r hr
    unfold render
    rw [List.getD_eq_getElem?_getD, List.getElem?_map, List.getElem?_range hr]
    rfl
  refine ⟨?_, ?_, ?_, rfl, fun x => rfl, rfl⟩
  · unfold render
    rw [List.length_map, List.length_range]
  · intro r hr
    rw [hrow r hr, List.length_map, List.length_range]
  · intro r c hr hc
    rw [hrow r hr, List.getD_eq_getElem?_getD, List.getElem?_map,
      List.getElem?_range hc]
    rfl

/-- Witness for C7 at the concrete start field, row 7, column 14. -/
theorem claim_C7_witness :
    ((render exField).getD 7 []).getD 14 ' ' = glyph (exField ⟨7, 14⟩) :=
  (claim_C7_render exField).2.2.1 7 14 (by decide) (by decide)

/-- Claim C3: with the head and tail tiles as the program maintains them
(two snake tiles on distinct on-grid cells), a tick whose candidate head
cell is Empty clears the old tail cell, advances the tracked tail to the
segment the tail's back-reference named, and leaves the number of snake
tiles unchanged; a tick whose candidate head cell is Food keeps the tracked
tail and increases the number of snake tiles by exactly one. -/
theorem claim_C3_move_and_grow (shuffle : List Cell → List Cell)
    (hs : ∀ l, (shuffle l).Perm l) (dir : Direction) (s : SimState)
    (nx hc : Cell) (hhb : InBounds s.head) (htb : InBounds s.tail)
    (htail : s.field s.tail = Tile.Snake nx)
    (hhead : s.field s.head = Tile.Snake hc)
    (hne : s.tail ≠ s.head) :
    (s.field (moveHead dir s.head) = Tile.Empty →
      ∃ s', tick shuffle dir s = TickResult.ok s' ∧ s'.tail = nx ∧
        s'.field s.tail = Tile.Empty ∧
        snakeCount s'.field = snakeCount s.field) ∧
    (s.field (moveHead dir s.head) = Tile.Food →
      ∃ s', tick shuffle dir s = TickResult.ok s' ∧ s'.tail = s.tail ∧
        snakeCount s'.field = snakeCount s.field + 1) := by
  have hnhb : InBounds (moveHead dir s.head) := moveHead_inBounds dir s.head hhb
  have hnh_ne_head : moveHead dir s.head ≠ s.head := moveHead_ne dir s.head
  constructor
  · intro hnh
    have htail_ne_nh : s.tail ≠ moveHead dir s.head := by
      intro hEq
      rw [hEq, hnh] at htail
      cases htail
    refine ⟨_, tick_empty hnh, ?_, ?_, ?_⟩
    · rw [retractTail_snake htail]
    · rw [retractTail_snake htail]
      show writeHead (setTile s.field s.tail Tile.Empty) s.head
        (moveHead dir s.head) s.tail = Tile.Empty
      rw [writeHead_other _ _ _ _ hne htail_ne_nh, setTile_same]
    · rw [retractTail_snake htail]
      show snakeCount (writeHead (setTile s.field s.tail Tile.Empty) s.head
        (moveHead dir s.head)) = snakeCount s.field
      unfold writeHead snakeCount
      have e1 := tileCount_setTile isSnake s.field s.tail Tile.Empty htb
      rw [htail] at e1
      have e2 := tileCount_setTile isSnake
        (setTile s.field s.tail Tile.Empty) s.head
        (Tile.Snake (moveHead dir s.head)) hhb
      rw [setTile_ne _ _ _ _ (Ne.symm hne), hhead] at e2
      have e3 := tileCount_setTile isSnake
        (setTile (setTile s.field s.tail Tile.Empty) s.head
          (Tile.Snake (moveHead dir s.head)))
        (moveHead dir s.head) (Tile.Snake (moveHead dir s.head)) hnhb
      rw [setTile_ne _ _ _ _ hnh_ne_head,
        setTile_ne _ _ _ _ (Ne.symm htail_ne_nh), hnh] at e3
      simp [isSnake] at e1 e2 e3
      omega
  · intro hnh
    have hnh_ne_tail : moveHead dir s.head ≠ s.tail := by
      intro hEq
      rw [← hEq, hnh] at htail
      cases htail
    refine ⟨_, tick_food hnh, rfl, ?_⟩
    show snakeCount (writeHead (placeFood shuffle s.field) s.head
      (moveHead dir s.head)) = snakeCount s.field + 1
    unfold writeHead snakeCount
    cases hfc : get_rnd_empty_cell shuffle s.field with
    | some chosen =>
        obtain ⟨hcb, hce⟩ := get_rnd_empty_cell_some hs hfc
        have hch : chosen ≠ s.head := by
          intro hEq
          rw [hEq, hhead] at hce
          cases hce
        have hcn : chosen ≠ moveHead dir s.head := by
          intro hEq
          rw [hEq, hnh] at hce
          cases hce
        rw [placeFood_some hfc]
        have e1 := tileCount_setTile isSnake s.field chosen Tile.Food hcb
        rw [hce] at e1
        have e2 := tileCount_setTile isSnake
          (setTile s.field chosen Tile.Food) s.head
          (Tile.Snake (moveHead dir s.head)) hhb
        rw [setTile_ne _ _ _ _ (Ne.symm hch), hhead] at e2
        have e3 := tileCount_setTile isSnake
          (setTile (setTile s.field chosen Tile.Food) s.head
            (Tile.Snake (moveHead dir s.head)))
          (moveHead dir s.head) (Tile.Snake (moveHead dir s.head)) hnhb
        rw [setTile_ne _ _ _ _ hnh_ne_head,
          setTile_ne _ _ _ _ (Ne.symm hcn), hnh] at e3
        simp [isSnake] at e1 e2 e3
        omega
    | none =>
        rw [placeFood_none hfc]
        have e2 := tileCount_setTile isSnake s.field s.head
          (Tile.Snake (moveHead dir s.head)) hhb
        rw [hhead] at e2
        have e3 := tileCount_setTile isSnake
          (setTile s.field s.head (Tile.Snake (moveHead dir s.head)))
          (moveHead dir s.head) (Tile.Snake (moveHead dir s.head)) hnhb
        rw [setTile_ne _ _ _ _ hnh_ne_head, hnh] at e3
        simp [isSnake] at e2 e3
        omega

set_option maxRecDepth 10000 in
/-- Witness for C3: the concrete start snake; moving right hits an Empty
cell and moving down would hit an Empty cell as well, while the
food-directed variant is exercised by the C4 witness. -/
theorem claim_C3_witness :
    (exState.field (moveHead (Direction.Hor Polarity.Pos) exState.head) =
        Tile.Empty →
      ∃ s', tick id (Direction.Hor Polarity.Pos) exState =
          TickResult.ok s' ∧ s'.tail = ⟨7, 14⟩ ∧
        s'.field exState.tail = Tile.Empty ∧
        snakeCount s'.field = snakeCount exState.field) ∧
    (exState.field (moveHead (Direction.Hor Polarity.Pos) exState.head) =
        Tile.Food →
      ∃ s', tick id (Direction.Hor Polarity.Pos) exState =
          TickResult.ok s' ∧ s'.tail = exState.tail ∧
        snakeCount s'.field = snakeCount exState.field + 1) :=
  claim_C3_move_and_grow id (fun l => List.Perm.refl l)
    (Direction.Hor Polarity.Pos) exState ⟨7, 14⟩ ⟨7, 14⟩
    (by decide) (by decide) (by decide) (by decide) (by decide)

/-- Claim C4: on a food-consuming tick (candidate head cell holds Food,
and on entry the field holds exactly one food tile), if at least one empty
cell exists at the moment of placement the post-tick field holds exactly
one food tile, and if no empty cell exists the post-tick field holds zero
food tiles; in both cases the tick completes with an `ok` result. -/
theorem claim_C4_food_placement (shuffle : List Cell → List Cell)
    (hs : ∀ l, (shuffle l).Perm l) (dir : Direction) (s : SimState)
    (hc : Cell) (hhb : InBounds s.head)
    (hhead : s.field s.head = Tile.Snake hc)
    (hfood : s.field (moveHead dir s.head) = Tile.Food)
    (hcount : foodCount s.field = 1) :
    (emptyCells s.field ≠ [] →
      ∃ s', tick shuffle dir s = TickResult.ok s' ∧
        foodCount s'.field = 1) ∧
    (emptyCells s.field = [] →
      ∃ s', tick shuffle dir s = TickResult.ok s' ∧
        foodCount s'.field = 0) := by
  have hnhb : InBounds (moveHead dir s.head) := moveHead_inBounds dir s.head hhb
  have hnh_ne_head : moveHead dir s.head ≠ s.head := moveHead_ne dir s.head
  constructor
  · intro hne
    obtain ⟨chosen, hfc⟩ := get_rnd_empty_cell_isSome hs hne
    obtain ⟨hcb, hce⟩ := get_rnd_empty_cell_some hs hfc
    have hch : chosen ≠ s.head := by
      intro hEq
      rw [hEq, hhead] at hce
      cases hce
    have hcn : chosen ≠ moveHead dir s.head := by
      intro hEq
      rw [hEq, hfood] at hce
      cases hce
    refine ⟨_, tick_food hfood, ?_⟩
    show foodCount (writeHead (placeFood shuffle s.field) s.head
      (moveHead dir s.head)) = 1
    unfold writeHead foodCount
    rw [placeFood_some hfc]
    have e1 := tileCount_setTile isFood s.field chosen Tile.Food hcb
    rw [hce] at e1
    have e2 := tileCount_setTile isFood
      (setTile s.field chosen Tile.Food) s.head
      (Tile.Snake (moveHead dir s.head)) hhb
    rw [setTile_ne _ _ _ _ (Ne.symm hch), hhead] at e2
    have e3 := tileCount_setTile isFood
      (setTile (setTile s.field chosen Tile.Food) s.head
        (Tile.Snake (moveHead dir s.head)))
      (moveHead dir s.head) (Tile.Snake (moveHead dir s.head)) hnhb
    rw [setTile_ne _ _ _ _ hnh_ne_head,
      setTile_ne _ _ _ _ (Ne.symm hcn), hfood] at e3
    unfold foodCount at hcount
    simp [isFood] at e1 e2 e3
    omega
  · intro hemp
    refine ⟨_, tick_food hfood, ?_⟩
    show foodCount (writeHead (placeFood shuffle s.field) s.head
      (moveHead dir s.head)) = 0
    unfold writeHead foodCount
    rw [placeFood_none (get_rnd_empty_cell_none hemp)]
    have e2 := tileCount_setTile isFood s.field s.head
      (Tile.Snake (moveHead dir s.head)) hhb
    rw [hhead] at e2
    have e3 := tileCount_setTile isFood
      (setTile s.field s.head (Tile.Snake (moveHead dir s.head)))
      (moveHead dir s.head) (Tile.Snake (moveHead dir s.head)) hnhb
    rw [setTile_ne _ _ _ _ hnh_ne_head, hfood] at e3
    unfold foodCount at hcount
    simp [isFood] at e2 e3
    omega

set_option maxRecDepth 10000 in
/-- Witness for C4: the concrete about-to-eat snake, whose field has many
empty cells and exactly one food tile. -/
theorem claim_C4_witness :
    (emptyCells exStateFood.field ≠ [] →
      ∃ s', tick id (Direction.Hor Polarity.Pos) exStateFood =
          TickResult.ok s' ∧ foodCount s'.field = 1) ∧
    (emptyCells exStateFood.field = [] →
      ∃ s', tick id (Direction.Hor Polarity.Pos) exStateFood =
          TickResult.ok s' ∧ foodCount s'.field = 0) :=
  claim_C4_food_placement id (fun l => List.Perm.refl l)
    (Direction.Hor Polarity.Pos) exStateFood ⟨7, 14⟩
    (by decide) (by decide) (by decide) (by decide)

/-- Claim C10: on a food-consuming tick the cell chosen for the new food is
empty at scan time, hence distinct from both the candidate head cell
(which holds the consumed food) and the previous head cell (which holds a
snake tile), so the later head-tile writes never overwrite it: the new
food tile is still present when the tick ends. -/
theorem claim_C10_new_food_survives (shuffle : List Cell → List Cell)
    (hs : ∀ l, (shuffle l).Perm l) (dir : Direction) (s : SimState)
    (hc chosen : Cell)
    (hhead : s.field s.head = Tile.Snake hc)
    (hfood : s.field (moveHead dir s.head) = Tile.Food)
    (hchosen : get_rnd_empty_cell shuffle s.field = some chosen) :
    s.field chosen = Tile.Empty ∧ chosen ≠ moveHead dir s.head ∧
    chosen ≠ s.head ∧
    ∃ s', tick shuffle dir s = TickResult.ok s' ∧
      s'.field chosen = Tile.Food := by
  obtain ⟨hcb, hce⟩ := get_rnd_empty_cell_some hs hchosen
  have hcn : chosen ≠ moveHead dir s.head := by
    intro hEq
    rw [hEq, hfood] at hce
    cases hce
  have hch : chosen ≠ s.head := by
    intro hEq
    rw [hEq, hhead] at hce
    cases hce
  refine ⟨hce, hcn, hch, _, tick_food hfood, ?_⟩
  show writeHead (placeFood shuffle s.field) s.head
    (moveHead dir s.head) chosen = Tile.Food
  rw [writeHead_other _ _ _ _ hch hcn, placeFood_some hchosen, setTile_same]

set_option maxRecDepth 10000 in
/-- Witness for C10: the concrete about-to-eat snake; the identity shuffle
picks the first empty cell of the row-major scan, (0,0). -/
theorem claim_C10_witness :
    exStateFood.field ⟨0, 0⟩ = Tile.Empty ∧
    (⟨0, 0⟩ : Cell) ≠ moveHead (Direction.Hor Polarity.Pos) exStateFood.head ∧
    (⟨0, 0⟩ : Cell) ≠ exStateFood.head ∧
    ∃ s', tick id (Direction.Hor Polarity.Pos) exStateFood =
        TickResult.ok s' ∧ s'.field ⟨0, 0⟩ = Tile.Food :=
  claim_C10_new_food_survives id (fun l => List.Perm.refl l)
    (Direction.Hor Polarity.Pos) exStateFood ⟨7, 14⟩ ⟨0, 0⟩
    (by decide) (by decide) (by decide)

/-- Claim C8: in every simulation state reachable from the initial
configuration by the tick step, the tile at the tracked tail coordinate
and the tile at the tracked head coordinate are snake tiles; consequently
the conditional guarding tail retraction in the Empty branch always fires:
`retractTail` clears the tail cell and advances the tail. -/
theorem claim_C8_tail_head_snake (s : SimState) (h : Reachable s) :
    (∃ c, s.field s.tail = Tile.Snake c ∧
      retractTail s.field s.tail = (setTile s.field s.tail Tile.Empty, c)) ∧
    s.field s.head = Tile.Snake s.head := by
  obtain ⟨cs, hlen, hhd, hlast, hnd, hbd, hchain, hself⟩ :=
    reachable_chainInv h
  cases cs with
  | nil => cases hhd
  | cons c0 l =>
    cases l with
    | nil =>
        rw [List.length_singleton] at hlen
        omega
    | cons c1 rest =>
        have hc0 : c0 = s.tail := by
          rw [List.head?_cons, Option.some.injEq] at hhd
          exact hhd
        have hlk : s.field s.tail = Tile.Snake c1 := by
          rw [← hc0]
          exact (List.chain'_cons.mp hchain).1
        exact ⟨⟨c1, hlk, retractTail_snake hlk⟩, hself⟩

set_option maxRecDepth 10000 in
/-- Witness for C8 at the reachable initial state built with the identity
shuffle. -/
theorem claim_C8_witness :
    (∃ c, initStateId.field initStateId.tail = Tile.Snake c ∧
      retractTail initStateId.field initStateId.tail =
        (setTile initStateId.field initStateId.tail Tile.Empty, c)) ∧
    initStateId.field initStateId.head = Tile.Snake initStateId.head :=
  claim_C8_tail_head_snake initStateId
    (Reachable.init id (fun l => List.Perm.refl l) initStateId rfl)

end Snake
